import Mathlib

/-!
# Verification of the VtonEval pairing and normalization pipeline

Shallow embedding of `src/eval.py`.  Filenames are modelled as `List Char`,
images as their `(width, height)` dimensions (the pixel payload is irrelevant
to every geometric property below), and Python's float-divide-then-`int`
truncation as natural-number division, which is exact for the non-negative
quantities involved.  Side-effecting reports (`print`) are modelled as an
explicitly returned list, and the `assert False` failure path as `Option`.
-/

namespace VtonEval

/-- The literal dataset tag tested by `"inshop" in filename`. -/
def inshopTag : List Char := ['i', 'n', 's', 'h', 'o', 'p']

/-- Python `filename.split(".")[0]`: the prefix of the name before its first
dot (the whole name when it has no dot). -/
def splitHead (f : List Char) : List Char := f.takeWhile (fun c => c ≠ '.')

/-- Index of the first decimal digit of the filename, as computed by the
`for i, c in enumerate(filename)` scan in `extract_id_from_filename`. -/
def firstDigitIdx : List Char → Option Nat
  | [] => none
  | c :: cs => if c.isDigit then some 0 else (firstDigitIdx cs).map (· + 1)

/-- Model of `EvalDataset.extract_id_from_filename`.  `none` models the
`assert False` (`UnrecognizedFilenameError`) failure path. -/
def extract_id_from_filename (filename : List Char) : Option (List Char) :=
  if inshopTag <:+: filename then
    some (splitHead filename)
  else
    match firstDigitIdx filename with
    | none => none
    | some i => some ((filename.drop i).take 8)

/-- The stem of a filename in the sense of the spec's words: the name with
its extension stripped, i.e. everything before the *last* dot (the whole
name when it has no dot).  Used only to compare the spec's description of
the tagged branch against what the source computes. -/
def stem : List Char → List Char
  | [] => []
  | c :: cs => if '.' ∈ cs then c :: stem cs else if c = '.' then [] else c :: cs

/-- A scanned file: `os.DirEntry` reduced to the two fields the pipeline
reads, `entry.name` and `entry.path`. -/
structure FileHandle where
  name : List Char
  path : List Char
deriving DecidableEq, Repr

/-- The ground-truth dictionary of `prepare_data`, kept as the association
list of `(key, file)` entries in enumeration order; `none` when the key
extraction of some ground-truth file fails. -/
def gtEntries : List FileHandle → Option (List (List Char × FileHandle))
  | [] => some []
  | f :: fs => do
      let k ← extract_id_from_filename f.name
      let rest ← gtEntries fs
      pure ((k, f) :: rest)

/-- Lookup in the ground-truth dictionary.  A Python dict comprehension lets
later entries overwrite earlier ones sharing a key, so the lookup returns
the *last* entry with the given key. -/
def dictLookup (entries : List (List Char × FileHandle)) (k : List Char) :
    Option FileHandle :=
  (entries.reverse.find? (fun e => e.1 == k)).map Prod.snd

/-- The `for pred_file in pred_files` loop of `prepare_data`: resolves each
prediction against the ground-truth dictionary, returning the matched
`(gt_path, pred_path)` tuples in prediction order together with the list of
predictions reported by `print(f"Cannot find gt file for ...")`. -/
def prepare_data_loop (entries : List (List Char × FileHandle)) :
    List FileHandle → Option (List (List Char × List Char) × List FileHandle)
  | [] => some ([], [])
  | p :: ps => do
      let k ← extract_id_from_filename p.name
      let (pairs, reports) ← prepare_data_loop entries ps
      match dictLookup entries k with
      | none => some (pairs, p :: reports)
      | some g => some ((g.path, p.path) :: pairs, reports)

/-- Model of `EvalDataset.prepare_data`, with the two directory scans abstracted to
the file lists they return. -/
def prepare_data (gt_files pred_files : List FileHandle) :
    Option (List (List Char × List Char) × List FileHandle) := do
  let entries ← gtEntries gt_files
  prepare_data_loop entries pred_files

/-- An image reduced to its dimensions: `img.size == (w, h)`. -/
structure Img where
  w : Nat
  h : Nat
deriving DecidableEq, Repr

/-- Model of `EvalDataset.resize`: `new_w = int(w * self.height / h)`; Python's
float division followed by `int` truncation is floor division on these
non-negative quantities, i.e. `Nat` division. -/
def resize (height : Nat) (img : Img) : Img :=
  { w := img.w * height / img.h, h := height }

/-- The `EvalDataset` state reduced to the fields `__getitem__` reads: the configured
target height and the prepared list of (gt, pred) image pairs (decoding a
path is modelled as already yielding the image). -/
structure EvalDataset where
  height : Nat
  data : List (Img × Img)

/-- Model of `EvalDataset.__getitem__`: resize both images to the target height, then
defensively re-resize whichever side does not have the target height.
`transforms.ToTensor` preserves spatial dimensions, so the resulting tensor
pair is represented by its dimensions. -/
def getItem (d : EvalDataset) (idx : Nat) (hi : idx < d.data.length) : Img × Img :=
  let pair := d.data.get ⟨idx, hi⟩
  let gt := resize d.height pair.1
  let pred := resize d.height pair.2
  let gt := if gt.h ≠ d.height then resize d.height gt else gt
  let pred := if pred.h ≠ d.height then resize d.height pred else pred
  (gt, pred)

/-- A file of the ground-truth directory listing, as seen by
`copy_resize_gt`: its name and the image decoded from it. -/
structure DirFile where
  name : List Char
  img : Img
deriving DecidableEq, Repr

/-- The `for file in os.listdir(gt_folder)` loop of `copy_resize_gt`: `dir`
is the current contents of the sibling output directory `{gt_folder}_{height}`
as an association of names to saved images.  A file whose name already
exists in the output directory is skipped (`continue`); otherwise the
resized image is saved there.  `rz` abstracts
`img.resize((width, height), Image.LANCZOS)` followed by re-encoding on
`save`; the returned list records the names written, in order. -/
def copyLoop (rz : Img → Img) :
    List DirFile → List DirFile → List DirFile × List (List Char)
  | [], dir => (dir, [])
  | f :: fs, dir =>
      if f.name ∈ dir.map DirFile.name then copyLoop rz fs dir
      else
        let rest := copyLoop rz fs (dir ++ [⟨f.name, rz f.img⟩])
        (rest.1, f.name :: rest.2)

/-- Model of `copy_resize_gt` on an output directory with contents `dir` (empty on
the very first run, `os.makedirs` aside). -/
def copy_resize_gt (rz : Img → Img) (gtFiles : List DirFile) (dir : List DirFile) :
    List DirFile × List (List Char) :=
  copyLoop rz gtFiles dir

/-- One batch drawn from the dataloader: a batch of ground-truth tensors and
a batch of prediction tensors, each a list (the batch dimension) of
flattened value lists.  `gt.size(0)` is `b.gt.length`. -/
structure Batch where
  gt : List (List ℚ)
  pred : List (List ℚ)
deriving Repr

/-- Python `gt.size(0)`, the leading (batch) dimension used as the weight. -/
def batchSize (b : Batch) : Nat := b.gt.length

/-- The `(x * 2) - 1` rescale applied inside `lpips` to move a batch from
`[0, 1]` to `[-1, 1]`. -/
def rescale (t : List (List ℚ)) : List (List ℚ) :=
  t.map (fun x => x.map (fun v => v * 2 - 1))

/-- The `psnr` function: starting from `psnr_score = 0`, each batch adds
`psnr(pred, gt) * batch_size`, and the result is divided by
`len(dataloader.dataset)`.  The metric collaborator (a black box per the
source's imports) is the parameter `m`; metric values are modelled as exact
rationals. -/
def psnrScore (m : List (List ℚ) → List (List ℚ) → ℚ)
    (batches : List Batch) (datasetLen : Nat) : ℚ :=
  (batches.foldl (fun s b => s + m b.pred b.gt * (batchSize b : ℚ)) 0) / (datasetLen : ℚ)

/-- The `ssim` function, identical accumulation with the SSIM collaborator. -/
def ssimScore (m : List (List ℚ) → List (List ℚ) → ℚ)
    (batches : List Batch) (datasetLen : Nat) : ℚ :=
  (batches.foldl (fun s b => s + m b.pred b.gt * (batchSize b : ℚ)) 0) / (datasetLen : ℚ)

/-- The `lpips` function: both batches are rescaled to `[-1, 1]` and the
collaborator is called as `lpips_score(gt, pred)`; the accumulation and the
final division are the same. -/
def lpipsScore (m : List (List ℚ) → List (List ℚ) → ℚ)
    (batches : List Batch) (datasetLen : Nat) : ℚ :=
  (batches.foldl (fun s b => s + m (rescale b.gt) (rescale b.pred) * (batchSize b : ℚ)) 0)
    / (datasetLen : ℚ)

/-! ## Helper lemmas -/

/-- Both components of `getItem` come out of a plain `resize` to the target
height: `resize` always produces that height, so the defensive re-resize
branch of `__getitem__` is never taken. -/
theorem getItem_eq_resize (d : EvalDataset) (idx : Nat) (hi : idx < d.data.length) :
    getItem d idx hi =
      (resize d.height (d.data.get ⟨idx, hi⟩).1,
       resize d.height (d.data.get ⟨idx, hi⟩).2) := by
  simp [getItem, resize]

end VtonEval

namespace VtonEval

/-! ## Claim theorems -/

/-- C2, counterexample: the claim says the new width is `w × H / h` rounded
to the nearest integer, but `int(...)` in Python truncates; at width 1,
height 3, target height 2 the code yields width 0 while rounding 2/3 yields
1. -/
theorem resize_round_counterexample :
    ((resize 2 ⟨1, 3⟩).w : ℤ) ≠ round ((1 : ℚ) * 2 / 3) := by
  have h1 : ((1 : ℚ) * 2 / 3) = 2 / 3 := by norm_num
  have h2 : round ((2 : ℚ) / 3) = 1 := by
    rw [round_eq]
    have : ((2 : ℚ) / 3 + 1 / 2) = 7 / 6 := by norm_num
    rw [this, Int.floor_eq_iff]
    norm_num
  have h3 : (resize 2 ⟨1, 3⟩).w = 0 := by decide
  rw [h1, h2, h3]
  decide

/-- C2, amended: for every image of width `w` and height `h > 0` and every
target height `H`, `resize` produces height `H` and width equal to the real
quotient `w × H / h` truncated downward (floored), not rounded to the
nearest integer. -/
theorem resize_width_floor (w h H : Nat) (hh : 0 < h) :
    resize H ⟨w, h⟩ = ⟨⌊((w : ℚ) * H / h)⌋₊, H⟩ := by
  have : ⌊((w : ℚ) * H / h)⌋₊ = w * H / h := by
    rw [← Nat.cast_mul, Nat.floor_div_nat, Nat.floor_natCast]
  simp [resize, this]

/-- C2, witness for `resize_width_floor` at `w = 1`, `h = 3`, `H = 2`. -/
theorem resize_width_floor_witness :
    resize 2 ⟨1, 3⟩ = ⟨⌊((1 : ℚ) * 2 / 3)⌋₊, 2⟩ :=
  resize_width_floor 1 3 2 (by decide)

/-- C8: for every in-range index, `__getitem__` returns two tensors whose
heights both equal the configured target height, whatever the source
dimensions were. -/
theorem getItem_heights_eq (d : EvalDataset) (i : Nat) (hi : i < d.data.length) :
    (getItem d i hi).1.h = d.height ∧ (getItem d i hi).2.h = d.height := by
  rw [getItem_eq_resize]
  exact ⟨rfl, rfl⟩

/-- C8, witness: a dataset with target height 4 and one pair of images of
unrelated aspect ratios (6×3 and 5×2). -/
theorem getItem_heights_eq_witness :
    (getItem ⟨4, [(⟨6, 3⟩, ⟨5, 2⟩)]⟩ 0 (by decide)).1.h = 4 ∧
    (getItem ⟨4, [(⟨6, 3⟩, ⟨5, 2⟩)]⟩ 0 (by decide)).2.h = 4 :=
  getItem_heights_eq ⟨4, [(⟨6, 3⟩, ⟨5, 2⟩)]⟩ 0 (by decide)

/-- C10: `resize` to a positive target height `H` is a fixpoint on images
whose height is already `H` (same width and height back), resizing twice
equals resizing once, and the defensive second resize of `__getitem__`
never changes anything: the accessor returns exactly the single-resize
pair. -/
theorem resize_fixpoint (H : Nat) (img : Img) (hH : 0 < H) (himg : img.h = H) :
    resize H img = img ∧
    (∀ img2 : Img, resize H (resize H img2) = resize H img2) ∧
    (∀ (d : EvalDataset) (i : Nat) (hi : i < d.data.length),
      getItem d i hi =
        (resize d.height (d.data.get ⟨i, hi⟩).1,
         resize d.height (d.data.get ⟨i, hi⟩).2)) := by
  refine ⟨?_, ?_, ?_⟩
  · obtain ⟨w, h⟩ := img
    simp only [Img.mk.injEq] at himg ⊢
    subst himg
    simp [resize, Nat.mul_div_cancel _ hH]
  · intro img2
    simp [resize, Nat.mul_div_cancel _ hH]
  · intro d i hi
    exact getItem_eq_resize d i hi

/-- C10, witness: target height 4 acting on the 6×4 image. -/
theorem resize_fixpoint_witness :
    resize 4 ⟨6, 4⟩ = ⟨6, 4⟩ ∧
    (∀ img2 : Img, resize 4 (resize 4 img2) = resize 4 img2) ∧
    (∀ (d : EvalDataset) (i : Nat) (hi : i < d.data.length),
      getItem d i hi =
        (resize d.height (d.data.get ⟨i, hi⟩).1,
         resize d.height (d.data.get ⟨i, hi⟩).2)) :=
  resize_fixpoint 4 ⟨6, 4⟩ (by decide) (by decide)

end VtonEval

namespace VtonEval

/-- Running a `score += f(batch) * size` accumulation from an arbitrary
start equals the start plus the sum of the per-batch weighted terms. -/
theorem foldl_add_eq_sum (f : Batch → ℚ) (l : List Batch) (a : ℚ) :
    l.foldl (fun s b => s + f b) a = a + (l.map f).sum := by
  induction l generalizing a with
  | nil => simp
  | cons b bs ih => simp [ih, add_assoc]

/-- C1: each of the three paired metrics is the batch-weighted running
average: the accumulator gains `metric(batch) × batch_size` per batch and
the final value divides by the total sample count, so whenever the batch
sizes sum to the dataset length (as with `drop_last=False`) the result is
`Σ metric·size / Σ size`; in particular batches of sizes 10 and 3 with
metric values 0.8 and 0.5 give `(0.8×10 + 0.5×3)/13 = 19/26`, not the
unweighted mean 0.65. -/
theorem paired_metrics_weighted_average
    (m₁ m₂ m₃ : List (List ℚ) → List (List ℚ) → ℚ)
    (batches : List Batch) (n : Nat)
    (hn : (n : ℚ) = (batches.map (fun b => (batchSize b : ℚ))).sum) :
    psnrScore m₁ batches n =
      (batches.map (fun b => m₁ b.pred b.gt * (batchSize b : ℚ))).sum /
        (batches.map (fun b => (batchSize b : ℚ))).sum ∧
    ssimScore m₂ batches n =
      (batches.map (fun b => m₂ b.pred b.gt * (batchSize b : ℚ))).sum /
        (batches.map (fun b => (batchSize b : ℚ))).sum ∧
    lpipsScore m₃ batches n =
      (batches.map (fun b => m₃ (rescale b.gt) (rescale b.pred) * (batchSize b : ℚ))).sum /
        (batches.map (fun b => (batchSize b : ℚ))).sum ∧
    (psnrScore (fun _ g => if g.length = 10 then 4/5 else 1/2)
        [⟨List.replicate 10 [0], List.replicate 10 [0]⟩,
         ⟨List.replicate 3 [0], List.replicate 3 [0]⟩] 13 = 19/26 ∧
      (19 : ℚ)/26 = (4/5 * 10 + 1/2 * 3) / 13 ∧ (19 : ℚ)/26 ≠ 13/20) := by
  refine ⟨?_, ?_, ?_, ?_, by norm_num, by norm_num⟩
  · rw [psnrScore, foldl_add_eq_sum, zero_add, hn]
  · rw [ssimScore, foldl_add_eq_sum, zero_add, hn]
  · rw [lpipsScore, foldl_add_eq_sum, zero_add, hn]
  · simp [psnrScore, batchSize]
    norm_num

/-- C1, witness: two batches of sizes 10 and 3 whose sizes sum to the
dataset length 13. -/
theorem paired_metrics_weighted_average_witness :
    psnrScore (fun _ _ => 4/5)
        [⟨List.replicate 10 [0], List.replicate 10 [0]⟩,
         ⟨List.replicate 3 [0], List.replicate 3 [0]⟩] 13 =
      (([⟨List.replicate 10 [0], List.replicate 10 [0]⟩,
         ⟨List.replicate 3 [0], List.replicate 3 [0]⟩] : List Batch).map
          (fun b => (fun (_ _ : List (List ℚ)) => (4 : ℚ)/5) b.pred b.gt * (batchSize b : ℚ))).sum /
        (([⟨List.replicate 10 [0], List.replicate 10 [0]⟩,
           ⟨List.replicate 3 [0], List.replicate 3 [0]⟩] : List Batch).map
          (fun b => (batchSize b : ℚ))).sum :=
  (paired_metrics_weighted_average (fun _ _ => 4/5) (fun _ _ => 4/5) (fun _ _ => 4/5)
    [⟨List.replicate 10 [0], List.replicate 10 [0]⟩,
     ⟨List.replicate 3 [0], List.replicate 3 [0]⟩] 13
    (by simp [batchSize]; norm_num)).1

end VtonEval

namespace VtonEval

/-- The left-to-right scan of `extract_id_from_filename` finds the position
of the first decimal digit: every character before it is a non-digit and
the character at it is a digit. -/
theorem firstDigitIdx_spec (f : List Char) (hdig : ∃ c ∈ f, c.isDigit = true) :
    ∃ i, firstDigitIdx f = some i ∧
      (∀ c ∈ f.take i, c.isDigit = false) ∧
      ∃ c rest, f.drop i = c :: rest ∧ c.isDigit = true := by
  induction f with
  | nil => simp at hdig
  | cons c cs ih =>
    by_cases hc : c.isDigit
    · exact ⟨0, by simp [firstDigitIdx, hc], by simp, c, cs, rfl, hc⟩
    · have hdig' : ∃ c' ∈ cs, c'.isDigit = true := by
        obtain ⟨c', hc', hd⟩ := hdig
        rcases List.mem_cons.mp hc' with h | h
        · exact absurd (h ▸ hd) (by simpa using hc)
        · exact ⟨c', h, hd⟩
      obtain ⟨i, hfi, hpre, c', rest, hdrop, hd⟩ := ih hdig'
      refine ⟨i + 1, ?_, ?_, c', rest, by simpa using hdrop, hd⟩
      · simp [firstDigitIdx, hc, hfi]
      · intro x hx
        rcases List.mem_cons.mp (by simpa using hx) with h | h
        · simpa [h] using hc
        · exact hpre x h

/-- C3: on a filename without the `inshop` tag but with at least one
decimal digit, extraction returns the 8-character window of the filename
starting at the first digit — digits or not — silently truncated to however
many characters remain when fewer than 8 do (length `min 8 (|f| - i)`). -/
theorem extract_digit_window (f : List Char)
    (htag : ¬ inshopTag <:+: f) (hdig : ∃ c ∈ f, c.isDigit = true) :
    ∃ i, (∀ c ∈ f.take i, c.isDigit = false) ∧
      (∃ c rest, f.drop i = c :: rest ∧ c.isDigit = true) ∧
      extract_id_from_filename f = some ((f.drop i).take 8) ∧
      ((f.drop i).take 8).length = min 8 (f.length - i) := by
  obtain ⟨i, hfi, hpre, hat⟩ := firstDigitIdx_spec f hdig
  refine ⟨i, hpre, hat, ?_, ?_⟩
  · simp [extract_id_from_filename, htag, hfi]
  · simp [List.length_take, List.length_drop]

/-- C3, witness at the filename `a12`: no tag, first digit at index 1,
and only 3 − 1 = 2 characters remain, so the result truncates to `12`. -/
theorem extract_digit_window_witness :
    ∃ i, (∀ c ∈ (['a', '1', '2'] : List Char).take i, c.isDigit = false) ∧
      (∃ c rest, (['a', '1', '2'] : List Char).drop i = c :: rest ∧ c.isDigit = true) ∧
      extract_id_from_filename ['a', '1', '2'] = some (((['a', '1', '2'] : List Char).drop i).take 8) ∧
      (((['a', '1', '2'] : List Char).drop i).take 8).length = min 8 ((['a', '1', '2'] : List Char).length - i) :=
  extract_digit_window ['a', '1', '2'] (by decide) (by decide)

end VtonEval

namespace VtonEval

/-- A list without a dot is left whole by the before-first-dot split. -/
theorem splitHead_of_not_mem (f : List Char) (h : '.' ∉ f) : splitHead f = f :=
  List.takeWhile_eq_self_iff.mpr (fun c hc => by
    simp only [ne_eq, decide_eq_true_eq]
    rintro rfl
    exact h hc)

/-- On a filename with at most one dot, the prefix before the first dot
coincides with the stem (the name minus its extension, i.e. everything
before the last dot). -/
theorem splitHead_eq_stem (f : List Char) (h : f.count '.' ≤ 1) :
    splitHead f = stem f := by
  induction f with
  | nil => rfl
  | cons c cs ih =>
    by_cases hc : c = '.'
    · subst hc
      have hcs : '.' ∉ cs := by
        intro hmem
        have h1 : 1 ≤ cs.count '.' := List.one_le_count_iff.mpr hmem
        have h2 : (('.' :: cs).count '.') = cs.count '.' + 1 := by
          simp [List.count_cons]
        omega
      simp [splitHead, stem, hcs, List.takeWhile]
    · have hcount : cs.count '.' ≤ 1 := by
        have : (c :: cs).count '.' = cs.count '.' := by
          simp [List.count_cons, hc]
        omega
      by_cases hmem : '.' ∈ cs
      · have : splitHead (c :: cs) = c :: splitHead cs := by
          simp [splitHead, List.takeWhile, hc]
        rw [this, ih hcount]
        simp [stem, hmem]
      · have h1 : splitHead (c :: cs) = c :: cs :=
          splitHead_of_not_mem _ (by
            simp only [List.mem_cons, not_or]
            exact ⟨fun hh => hc hh.symm, hmem⟩)
        rw [h1]
        simp [stem, hmem, hc]

/-- C4, counterexample: for the tagged filename `inshop.v2.png` the code
returns the prefix before the *first* dot (`inshop`), not the stem
(`inshop.v2`); and extraction is not idempotent: on `a.inshop.png` it
returns the key `a`, on which a second extraction fails outright. -/
theorem tagged_extract_stem_counterexample :
    (extract_id_from_filename ['i','n','s','h','o','p','.','v','2','.','p','n','g'] ≠
      some (stem ['i','n','s','h','o','p','.','v','2','.','p','n','g'])) ∧
    (extract_id_from_filename ['a','.','i','n','s','h','o','p','.','p','n','g'] = some ['a'] ∧
      extract_id_from_filename ['a'] = none) := by decide

/-- C4, amended: on a filename containing the tag, extraction returns the
prefix before the first dot — which equals the stem whenever the filename
has at most one dot — and is idempotent whenever the tag occurs before the
first dot, i.e. whenever the returned key still contains the tag. -/
theorem tagged_extract_first_dot (f : List Char) (h : inshopTag <:+: f) :
    extract_id_from_filename f = some (splitHead f) ∧
    (f.count '.' ≤ 1 → extract_id_from_filename f = some (stem f)) ∧
    (inshopTag <:+: splitHead f →
      extract_id_from_filename (splitHead f) = some (splitHead f)) := by
  refine ⟨by simp [extract_id_from_filename, h], ?_, ?_⟩
  · intro hcnt
    simp [extract_id_from_filename, h, splitHead_eq_stem f hcnt]
  · intro h2
    unfold extract_id_from_filename
    rw [if_pos h2]
    unfold splitHead
    rw [List.takeWhile_idem]

/-- C4, witness at the single-dot tagged filename `inshop_1.png`, whose key
`inshop_1` still contains the tag. -/
theorem tagged_extract_first_dot_witness :
    extract_id_from_filename ['i','n','s','h','o','p','_','1','.','p','n','g'] =
      some (splitHead ['i','n','s','h','o','p','_','1','.','p','n','g']) ∧
    ((['i','n','s','h','o','p','_','1','.','p','n','g'] : List Char).count '.' ≤ 1 →
      extract_id_from_filename ['i','n','s','h','o','p','_','1','.','p','n','g'] =
        some (stem ['i','n','s','h','o','p','_','1','.','p','n','g'])) ∧
    (inshopTag <:+: splitHead ['i','n','s','h','o','p','_','1','.','p','n','g'] →
      extract_id_from_filename (splitHead ['i','n','s','h','o','p','_','1','.','p','n','g']) =
        some (splitHead ['i','n','s','h','o','p','_','1','.','p','n','g'])) :=
  tagged_extract_first_dot ['i','n','s','h','o','p','_','1','.','p','n','g'] (by decide)

end VtonEval

namespace VtonEval

/-- The digit scan finds nothing on a digit-free filename. -/
theorem firstDigitIdx_eq_none (f : List Char) (h : ∀ c ∈ f, c.isDigit = false) :
    firstDigitIdx f = none := by
  induction f with
  | nil => rfl
  | cons c cs ih =>
    have hc : c.isDigit = false := h c (List.mem_cons_self c cs)
    have hcs : ∀ c' ∈ cs, c'.isDigit = false := fun c' hc' => h c' (List.mem_cons_of_mem c hc')
    simp [firstDigitIdx, hc, ih hcs]

/-- If the key of any prediction file fails to extract, the prediction loop
of `prepare_data` fails as a whole. -/
theorem prepare_data_loop_none (entries : List (List Char × FileHandle))
    (preds : List FileHandle) (p : FileHandle) (hp : p ∈ preds)
    (hf : extract_id_from_filename p.name = none) :
    prepare_data_loop entries preds = none := by
  induction preds with
  | nil => simp at hp
  | cons q qs ih =>
    rcases List.mem_cons.mp hp with h | h
    · subst h
      simp [prepare_data_loop, hf]
    · rw [prepare_data_loop, ih h]
      cases extract_id_from_filename q.name <;> simp

/-- C5: a filename with neither the tag nor any decimal digit makes
extraction fail (the `assert False` / `UnrecognizedFilenameError` path),
and the failure is fatal: a run of `prepare_data` whose prediction list
contains any file with such a name aborts with no per-file recovery. -/
theorem extract_unrecognized_fatal (f : List Char)
    (htag : ¬ inshopTag <:+: f) (hdig : ∀ c ∈ f, c.isDigit = false) :
    extract_id_from_filename f = none ∧
    (∀ (gt preds : List FileHandle) (p : FileHandle), p ∈ preds → p.name = f →
      prepare_data gt preds = none) := by
  have hext : extract_id_from_filename f = none := by
    simp [extract_id_from_filename, htag, firstDigitIdx_eq_none f hdig]
  refine ⟨hext, fun gt preds p hp hname => ?_⟩
  rw [prepare_data]
  cases hgt : gtEntries gt with
  | none => rfl
  | some entries =>
    simpa using prepare_data_loop_none entries preds p hp (hname ▸ hext)

/-- C5, witness at the filename `ab.png` (no tag, no digit) appearing as
the sole prediction against an empty ground-truth set. -/
theorem extract_unrecognized_fatal_witness :
    extract_id_from_filename ['a','b','.','p','n','g'] = none ∧
    (∀ (gt preds : List FileHandle) (p : FileHandle), p ∈ preds →
      p.name = ['a','b','.','p','n','g'] → prepare_data gt preds = none) :=
  extract_unrecognized_fatal ['a','b','.','p','n','g'] (by decide) (by decide)

end VtonEval

namespace VtonEval

/-- When every prediction extracts a key, the prediction loop succeeds and
returns exactly the matched predictions as pairs, in prediction order, and
the unmatched predictions as the reported list. -/
theorem prepare_data_loop_eq (entries : List (List Char × FileHandle))
    (preds : List FileHandle)
    (hp : ∀ p ∈ preds, (extract_id_from_filename p.name).isSome = true) :
    prepare_data_loop entries preds = some
      (preds.filterMap (fun p =>
        ((extract_id_from_filename p.name).bind (dictLookup entries)).map
          (fun g => (g.path, p.path))),
       preds.filter (fun p =>
        ((extract_id_from_filename p.name).bind (dictLookup entries)).isNone)) := by
  induction preds with
  | nil => simp [prepare_data_loop]
  | cons q qs ih =>
    have hq := hp q (List.mem_cons_self q qs)
    obtain ⟨k, hk⟩ := Option.isSome_iff_exists.mp hq
    have ihs := ih (fun p hp' => hp p (List.mem_cons_of_mem q hp'))
    rw [prepare_data_loop, hk, ihs]
    cases hdl : dictLookup entries k with
    | none => simp [List.filterMap_cons, List.filter_cons, hk, hdl]
    | some g => simp [List.filterMap_cons, List.filter_cons, hk, hdl]

/-- C6: when the ground-truth dictionary builds and every prediction
extracts a key, `prepare_data` succeeds, yielding — in the enumeration
order of the prediction files — exactly one `(gt_path, pred_path)` pair per
prediction whose key resolves in the dictionary, while each prediction
whose key is absent is reported non-fatally and excluded. -/
theorem prepare_data_inner_join (gt preds : List FileHandle)
    (entries : List (List Char × FileHandle))
    (hg : gtEntries gt = some entries)
    (hp : ∀ p ∈ preds, (extract_id_from_filename p.name).isSome = true) :
    prepare_data gt preds = some
      (preds.filterMap (fun p =>
        ((extract_id_from_filename p.name).bind (dictLookup entries)).map
          (fun g => (g.path, p.path))),
       preds.filter (fun p =>
        ((extract_id_from_filename p.name).bind (dictLookup entries)).isNone)) := by
  rw [prepare_data, hg]
  simpa using prepare_data_loop_eq entries preds hp

/-- C6, witness: ground-truth keys {`1a`, `2b`} and prediction keys
{`1a`, `3c`} yield exactly one pair (for `1a`) and exactly one reported,
excluded prediction (`3c`); the `2b` ground truth is silently unused. -/
theorem prepare_data_inner_join_witness :
    prepare_data
        [⟨['g','1','a'], ['G','1']⟩, ⟨['g','2','b'], ['G','2']⟩]
        [⟨['p','1','a'], ['P','1']⟩, ⟨['p','3','c'], ['P','3']⟩] =
      some
        (([⟨['p','1','a'], ['P','1']⟩, ⟨['p','3','c'], ['P','3']⟩] : List FileHandle).filterMap
          (fun p =>
            ((extract_id_from_filename p.name).bind
                (dictLookup [(['1','a'], ⟨['g','1','a'], ['G','1']⟩), (['2','b'], ⟨['g','2','b'], ['G','2']⟩)])).map
              (fun g => (g.path, p.path))),
         ([⟨['p','1','a'], ['P','1']⟩, ⟨['p','3','c'], ['P','3']⟩] : List FileHandle).filter
          (fun p =>
            ((extract_id_from_filename p.name).bind
                (dictLookup [(['1','a'], ⟨['g','1','a'], ['G','1']⟩), (['2','b'], ⟨['g','2','b'], ['G','2']⟩)])).isNone)) ∧
    prepare_data
        [⟨['g','1','a'], ['G','1']⟩, ⟨['g','2','b'], ['G','2']⟩]
        [⟨['p','1','a'], ['P','1']⟩, ⟨['p','3','c'], ['P','3']⟩] =
      some ([(['G','1'], ['P','1'])], [⟨['p','3','c'], ['P','3']⟩]) :=
  ⟨prepare_data_inner_join
      [⟨['g','1','a'], ['G','1']⟩, ⟨['g','2','b'], ['G','2']⟩]
      [⟨['p','1','a'], ['P','1']⟩, ⟨['p','3','c'], ['P','3']⟩]
      [(['1','a'], ⟨['g','1','a'], ['G','1']⟩), (['2','b'], ⟨['g','2','b'], ['G','2']⟩)]
      (by decide) (by decide),
   by decide⟩

end VtonEval

namespace VtonEval

/-- Searching a reversed list for the first hit is taking the last hit of
the original list. -/
theorem find?_reverse_eq_getLast?_filter {α : Type} (p : α → Bool) (l : List α) :
    l.reverse.find? p = (l.filter p).getLast? := by
  induction l with
  | nil => rfl
  | cons a l ih =>
    rw [List.reverse_cons, List.find?_append, ih, List.filter_cons]
    cases hpa : p a
    · simp [hpa]
    · simp only [hpa, if_true]
      have hfa : List.find? p [a] = some a := by simp [hpa]
      rw [hfa]
      cases hfl : (l.filter p).getLast? with
      | none =>
        rw [List.getLast?_eq_none_iff.mp hfl]
        rfl
      | some x =>
        have hne : l.filter p ≠ [] := by
          intro hnil
          rw [hnil] at hfl
          simp at hfl
        obtain ⟨b, bs, hbs⟩ := List.exists_cons_of_ne_nil hne
        rw [hbs, List.getLast?_cons_cons, ← hbs, hfl]
        rfl

/-- The dictionary entries whose key is `k` are exactly the ground-truth
files whose extracted key is `k`, tagged with `k`, in enumeration order. -/
theorem gtEntries_filter (gt : List FileHandle)
    (entries : List (List Char × FileHandle))
    (hg : gtEntries gt = some entries) (k : List Char) :
    entries.filter (fun e => e.1 == k) =
      (gt.filter (fun f => extract_id_from_filename f.name == some k)).map
        (fun f => (k, f)) := by
  induction gt generalizing entries with
  | nil =>
    have hg' : some ([] : List (List Char × FileHandle)) = some entries := hg
    injection hg' with hg'
    subst hg'
    rfl
  | cons f fs ih =>
    rw [gtEntries] at hg
    cases hf : extract_id_from_filename f.name with
    | none => rw [hf] at hg; simp at hg
    | some kf =>
      rw [hf] at hg
      cases hfs : gtEntries fs with
      | none => rw [hfs] at hg; simp at hg
      | some rest =>
        rw [hfs] at hg
        simp at hg
        subst hg
        rw [List.filter_cons, List.filter_cons]
        have ihr := ih rest hfs
        by_cases hkk : kf = k
        · subst hkk
          simp [hf, ihr]
        · have h1 : ((kf, f).1 == k) = false := by
            simp [hkk]
          have h2 : (extract_id_from_filename f.name == some k) = false := by
            simp [hf, hkk]
          simp [h1, h2, ihr]

/-- Dictionary lookup returns the last-enumerated ground-truth file whose
extracted key matches, mirroring dict-comprehension overwrite semantics. -/
theorem dictLookup_eq_getLast (gt : List FileHandle)
    (entries : List (List Char × FileHandle))
    (hg : gtEntries gt = some entries) (k : List Char) :
    dictLookup entries k =
      (gt.filter (fun f => extract_id_from_filename f.name == some k)).getLast? := by
  simp only [dictLookup]
  rw [find?_reverse_eq_getLast?_filter, gtEntries_filter gt entries hg k,
    List.getLast?_map]
  cases (gt.filter (fun f => extract_id_from_filename f.name == some k)).getLast? <;> rfl

/-- If a prediction's key resolves in the dictionary to `g`, the pair
`(g.path, p.path)` appears among the tuples the loop builds. -/
theorem prepare_data_loop_mem (entries : List (List Char × FileHandle))
    (preds : List FileHandle) (p g : FileHandle) (k : List Char)
    (pairs : List (List Char × List Char)) (reports : List FileHandle)
    (hp : p ∈ preds) (hk : extract_id_from_filename p.name = some k)
    (hgk : dictLookup entries k = some g)
    (hrun : prepare_data_loop entries preds = some (pairs, reports)) :
    (g.path, p.path) ∈ pairs := by
  induction preds generalizing pairs reports with
  | nil => simp at hp
  | cons q qs ih =>
    rw [prepare_data_loop] at hrun
    cases hq : extract_id_from_filename q.name with
    | none => rw [hq] at hrun; simp at hrun
    | some k' =>
      rw [hq] at hrun
      cases hrest : prepare_data_loop entries qs with
      | none => rw [hrest] at hrun; simp at hrun
      | some pr =>
        obtain ⟨pairs', reports'⟩ := pr
        rw [hrest] at hrun
        rcases List.mem_cons.mp hp with hpq | hpq
        · subst hpq
          rw [hk] at hq
          injection hq with hq
          subst hq
          simp [hgk] at hrun
          rw [← hrun.1]
          exact List.mem_cons_self _ _
        · cases hdl : dictLookup entries k' with
          | none =>
            simp [hdl] at hrun
            rw [← hrun.1]
            exact ih pairs' reports' hpq hrest
          | some g' =>
            simp [hdl] at hrun
            rw [← hrun.1]
            exact List.mem_cons_of_mem _ (ih pairs' reports' hpq hrest)

/-- C7: ground-truth files sharing an extracted key collide silently in the
dictionary — the later-enumerated file wins — and every pair built for that
key references the last-enumerated ground-truth file with that key. -/
theorem gt_collision_last_write_wins (gt : List FileHandle)
    (entries : List (List Char × FileHandle))
    (hg : gtEntries gt = some entries) (k : List Char) :
    dictLookup entries k =
      (gt.filter (fun f => extract_id_from_filename f.name == some k)).getLast? ∧
    ∀ (preds : List FileHandle) (p g : FileHandle)
      (pairs : List (List Char × List Char)) (reports : List FileHandle),
      p ∈ preds → extract_id_from_filename p.name = some k →
      (gt.filter (fun f => extract_id_from_filename f.name == some k)).getLast? = some g →
      prepare_data gt preds = some (pairs, reports) →
      (g.path, p.path) ∈ pairs := by
  have hdict := dictLookup_eq_getLast gt entries hg k
  refine ⟨hdict, fun preds p g pairs reports hp hk hlast hrun => ?_⟩
  rw [prepare_data, hg] at hrun
  simp at hrun
  exact prepare_data_loop_mem entries preds p g k pairs reports hp hk
    (hdict.trans hlast) hrun

/-- C7, witness: two ground-truth files `g1a` and `h1a` both map to key
`1a`; the dictionary build raises no error, the lookup returns the later
file `h1a`, and the pair built for the prediction `p1a` references the
later file's path `G2`. -/
theorem gt_collision_last_write_wins_witness :
    (dictLookup [(['1','a'], ⟨['g','1','a'], ['G','1']⟩), (['1','a'], ⟨['h','1','a'], ['G','2']⟩)] ['1','a'] =
      (([⟨['g','1','a'], ['G','1']⟩, ⟨['h','1','a'], ['G','2']⟩] : List FileHandle).filter
        (fun f => extract_id_from_filename f.name == some ['1','a'])).getLast? ∧
     ∀ (preds : List FileHandle) (p g : FileHandle)
       (pairs : List (List Char × List Char)) (reports : List FileHandle),
       p ∈ preds → extract_id_from_filename p.name = some ['1','a'] →
       (([⟨['g','1','a'], ['G','1']⟩, ⟨['h','1','a'], ['G','2']⟩] : List FileHandle).filter
         (fun f => extract_id_from_filename f.name == some ['1','a'])).getLast? = some g →
       prepare_data [⟨['g','1','a'], ['G','1']⟩, ⟨['h','1','a'], ['G','2']⟩] preds =
         some (pairs, reports) →
       (g.path, p.path) ∈ pairs) ∧
    prepare_data [⟨['g','1','a'], ['G','1']⟩, ⟨['h','1','a'], ['G','2']⟩]
        [⟨['p','1','a'], ['P','1']⟩] =
      some ([(['G','2'], ['P','1'])], []) :=
  ⟨gt_collision_last_write_wins
      [⟨['g','1','a'], ['G','1']⟩, ⟨['h','1','a'], ['G','2']⟩]
      [(['1','a'], ⟨['g','1','a'], ['G','1']⟩), (['1','a'], ⟨['h','1','a'], ['G','2']⟩)]
      (by decide) ['1','a'],
   by decide⟩

end VtonEval

namespace VtonEval

/-- The copy loop never removes a file from the output directory. -/
theorem copyLoop_mono (rz : Img → Img) (fs : List DirFile) :
    ∀ (dir : List DirFile) (n : List Char), n ∈ dir.map DirFile.name →
      n ∈ (copyLoop rz fs dir).1.map DirFile.name := by
  induction fs with
  | nil => intro dir n hn; simpa [copyLoop] using hn
  | cons f fs ih =>
    intro dir n hn
    rw [copyLoop]
    by_cases hf : f.name ∈ dir.map DirFile.name
    · rw [if_pos hf]
      exact ih dir n hn
    · rw [if_neg hf]
      exact ih (dir ++ [⟨f.name, rz f.img⟩]) n (by simpa using Or.inl hn)

/-- After a run of the copy loop, every listed input file has an entry in
the output directory. -/
theorem copyLoop_covers (rz : Img → Img) (fs : List DirFile) :
    ∀ (dir : List DirFile) (f : DirFile), f ∈ fs →
      f.name ∈ (copyLoop rz fs dir).1.map DirFile.name := by
  induction fs with
  | nil => intro dir f hf; simp at hf
  | cons g gs ih =>
    intro dir f hf
    rw [copyLoop]
    by_cases hg : g.name ∈ dir.map DirFile.name
    · rw [if_pos hg]
      rcases List.mem_cons.mp hf with h | h
      · exact copyLoop_mono rz gs dir f.name (h ▸ hg)
      · exact ih dir f h
    · rw [if_neg hg]
      rcases List.mem_cons.mp hf with h | h
      · subst h
        exact copyLoop_mono rz gs (dir ++ [⟨f.name, rz f.img⟩]) f.name (by simp)
      · exact ih (dir ++ [⟨g.name, rz g.img⟩]) f h

/-- A copy-loop run in which every input file already exists in the output
directory does nothing: same directory back and no writes. -/
theorem copyLoop_skips (rz : Img → Img) (fs : List DirFile) (dir : List DirFile)
    (h : ∀ f ∈ fs, f.name ∈ dir.map DirFile.name) :
    copyLoop rz fs dir = (dir, []) := by
  induction fs with
  | nil => rfl
  | cons f fs ih =>
    rw [copyLoop, if_pos (h f (List.mem_cons_self f fs))]
    exact ih (fun g hg => h g (List.mem_cons_of_mem f hg))

/-- C9: the bulk exact-resize pass is idempotent: a second run over the
same inputs finds every target file already present, performs no writes,
and leaves the sibling output directory exactly as the first run left it. -/
theorem copy_resize_gt_idempotent (rz : Img → Img)
    (gtFiles dir : List DirFile) :
    copy_resize_gt rz gtFiles (copy_resize_gt rz gtFiles dir).1 =
      ((copy_resize_gt rz gtFiles dir).1, []) :=
  copyLoop_skips rz gtFiles (copyLoop rz gtFiles dir).1
    (fun f hf => copyLoop_covers rz gtFiles dir f hf)

end VtonEval

